import Mathlib

/-
Verification of the view/commit core of the jj repository.

The embedding translates `src/lib/src/view.rs` and `src/lib/src/commit.rs`
directly.  The supporting value types (`RefTarget`, `RemoteRef` from
`op_store`, and the reference merge algorithm from `refs`) are not part of
the provided sources, so they are modelled from the specification text, as
marked on each such definition.
-/

namespace JJ

/-- CommitId: an opaque, comparable identifier for a commit. -/
abbrev CommitId := Nat

/-- TreeId: an opaque identifier for a stored tree. -/
abbrev TreeId := Nat

/-- WorkspaceId: the name of one working copy. -/
abbrev WorkspaceId := String

/-- A bookmark / tag / git-ref name. -/
abbrev RefNameT := String

/-- A remote name. -/
abbrev RemoteNameT := String

/-- Modelled from the spec: `op_store::RefTarget` is missing from the
sources.  §3 describes it as "an ordered multiset of *adds* and *removes*
of CommitId"; since §4.2 additionally requires the merge to be commutative
in the two sides, the adds and removes are modelled as multisets. -/
structure RefTarget where
  removes : Multiset CommitId
  adds : Multiset CommitId
deriving DecidableEq

/-- Modelled from the spec: the absent RefTarget has "no adds, no removes". -/
def RefTarget.absent : RefTarget := ⟨0, 0⟩

/-- Modelled from the spec: a resolved target has "exactly one add, zero
removes — equivalent to `points at commit X`". -/
def RefTarget.normal (id : CommitId) : RefTarget := ⟨0, {id}⟩

/-- Modelled from the spec: `is_present` distinguishes absent from the rest. -/
def RefTarget.is_present (t : RefTarget) : Bool := decide (t ≠ RefTarget.absent)

/-- Modelled from the spec: conflicted means "multiple adds and/or removes",
i.e. present but not of the resolved single-add shape. -/
def RefTarget.is_conflict (t : RefTarget) : Bool :=
  t.is_present && ! (decide (t.removes = 0) && decide (Multiset.card t.adds = 1))

/-- Modelled from the spec: cancelling an id that occurs both as an add and
as a remove, so that "values unaffected by both sides are unaffected". -/
def RefTarget.simplify (t : RefTarget) : RefTarget :=
  ⟨t.removes - t.adds, t.adds - t.removes⟩

/-- Modelled from the spec: `refs::merge_ref_targets` is missing from the
sources.  §4.2: "a three-way merge over the multiset of adds: values added
on exactly one side (relative to base) are added; values removed on exactly
one side are removed; values unaffected by both sides are unaffected", and
an incompatible double update yields "a conflicted RefTarget carrying all
contributing adds minus common removes".  The base's adds become removes of
the combination and vice versa, and matching add/remove pairs cancel. -/
def merge_ref_targets (base side1 side2 : RefTarget) : RefTarget :=
  RefTarget.simplify
    ⟨side1.removes + base.adds + side2.removes,
     side1.adds + base.removes + side2.adds⟩

/-! ### Association-list model of `BTreeMap` -/

/-- `BTreeMap::get` (keys are unique in a `BTreeMap`; the model returns the
first matching entry). -/
def mapGet {K V : Type} [DecidableEq K] : List (K × V) → K → Option V
  | [], _ => none
  | e :: rest, k => if e.1 = k then some e.2 else mapGet rest k

/-- `BTreeMap::insert`: replace the value at the key, or append the entry. -/
def mapInsert {K V : Type} [DecidableEq K] : List (K × V) → K → V → List (K × V)
  | [], k, v => [(k, v)]
  | e :: rest, k, v => if e.1 = k then (k, v) :: rest else e :: mapInsert rest k v

/-- `BTreeMap::remove`: drop the entry with the key. -/
def mapRemove {K V : Type} [DecidableEq K] : List (K × V) → K → List (K × V)
  | [], _ => []
  | e :: rest, k => if e.1 = k then mapRemove rest k else e :: mapRemove rest k

/-- `BTreeMap::get_mut` followed by an update of the found value. -/
def mapModify {K V : Type} [DecidableEq K] : List (K × V) → K → (V → V) → List (K × V)
  | [], _, _ => []
  | e :: rest, k, f => if e.1 = k then (e.1, f e.2) :: rest else e :: mapModify rest k f

/-! ### RemoteRef and the per-remote bookmark view -/

/-- Modelled from the spec: `op_store::RemoteRef` is missing from the
sources.  §3: "a RefTarget plus a tracking-state flag (tracked vs.
untracked)". -/
structure RemoteRef where
  target : RefTarget
  tracked : Bool
deriving DecidableEq

/-- Modelled from the spec: `RemoteRef::absent_ref()`, the absent remote
reference (absent target, untracked). -/
def RemoteRef.absent_ref : RemoteRef := ⟨RefTarget.absent, false⟩

/-- Modelled from the spec: a RemoteRef is present when its target is. -/
def RemoteRef.is_present (r : RemoteRef) : Bool := r.target.is_present

/-- `op_store::RemoteView`: the bookmarks of one remote. -/
structure RemoteView where
  bookmarks : List (RefNameT × RemoteRef)
deriving DecidableEq

/-! ### View (`src/lib/src/view.rs`)

`View` wraps `op_store::View`; since all of the wrapper's methods act on
the `data` field, the embedding inlines the `op_store::View` record. -/

structure View where
  head_ids : List CommitId
  local_bookmarks : List (RefNameT × RefTarget)
  tags : List (RefNameT × RefTarget)
  remote_views : List (RemoteNameT × RemoteView)
  git_refs : List (String × RefTarget)
  git_head : RefTarget
  wc_commit_ids : List (WorkspaceId × CommitId)
deriving DecidableEq

/-- `View::get_wc_commit_id`. -/
def View.get_wc_commit_id (v : View) (workspace_id : WorkspaceId) : Option CommitId :=
  mapGet v.wc_commit_ids workspace_id

/-- Error from attempts to rename a workspace (`RenameWorkspaceError`). -/
inductive RenameWorkspaceError where
  | workspaceDoesNotExist (workspace_id : String)
  | workspaceAlreadyExists (workspace_id : String)
deriving DecidableEq

/-- `View::rename_workspace`.  The Rust method mutates `self` and returns
`Result<(), RenameWorkspaceError>`; the embedding passes the state
explicitly and returns the updated view together with the optional error.
`BTreeMap::remove` of an absent key leaves the map unchanged, which the
`none` branch reflects. -/
def View.rename_workspace (v : View) (old_workspace_id new_workspace_id : WorkspaceId) :
    View × Option RenameWorkspaceError :=
  if (mapGet v.wc_commit_ids new_workspace_id).isSome then
    (v, some (.workspaceAlreadyExists new_workspace_id))
  else
    match mapGet v.wc_commit_ids old_workspace_id with
    | none =>
        ({ v with wc_commit_ids := mapRemove v.wc_commit_ids old_workspace_id },
         some (.workspaceDoesNotExist old_workspace_id))
    | some wc_commit_id =>
        ({ v with wc_commit_ids := (mapInsert (mapRemove v.wc_commit_ids old_workspace_id)
            new_workspace_id wc_commit_id) },
         none)

/-- `View::local_bookmarks`: iterates the local-bookmark entries. -/
def View.local_bookmarks_seq (v : View) : List (RefNameT × RefTarget) :=
  v.local_bookmarks

/-- `View::get_local_bookmark`: `get(name).flatten()`, where flattening an
absent optional yields `RefTarget::absent()`. -/
def View.get_local_bookmark (v : View) (name : RefNameT) : RefTarget :=
  (mapGet v.local_bookmarks name).getD RefTarget.absent

/-- `View::set_local_bookmark_target`: a present target is inserted, an
absent one removes the entry. -/
def View.set_local_bookmark_target (v : View) (name : RefNameT) (target : RefTarget) : View :=
  if target.is_present then
    { v with local_bookmarks := mapInsert v.local_bookmarks name target }
  else
    { v with local_bookmarks := mapRemove v.local_bookmarks name }

/-- `View::get_remote_bookmark`: looks up the remote's view, then the
bookmark, flattening missing levels to `RemoteRef::absent_ref()`. -/
def View.get_remote_bookmark (v : View) (remote name : String) : RemoteRef :=
  match mapGet v.remote_views remote with
  | some remote_view => (mapGet remote_view.bookmarks name).getD RemoteRef.absent_ref
  | none => RemoteRef.absent_ref

/-- `View::set_remote_bookmark`: a present ref is inserted under the remote
(creating the per-remote view via `entry(..).or_default()`); an absent ref
removes the bookmark from the remote's view when that view exists. -/
def View.set_remote_bookmark (v : View) (remote name : String) (remote_ref : RemoteRef) : View :=
  if remote_ref.is_present then
    match mapGet v.remote_views remote with
    | some _ =>
        { v with remote_views := (mapModify v.remote_views remote
            (fun rv => ⟨mapInsert rv.bookmarks name remote_ref⟩)) }
    | none =>
        { v with remote_views := (mapInsert v.remote_views remote
            ⟨mapInsert [] name remote_ref⟩) }
  else
    match mapGet v.remote_views remote with
    | some _ =>
        { v with remote_views := (mapModify v.remote_views remote
            (fun rv => ⟨mapRemove rv.bookmarks name⟩)) }
    | none => v

/-- The commit ids of one RefTarget: `target.as_merge().iter().flatten()`
walks both the removes and the adds. -/
def refTargetIds (t : RefTarget) : Multiset CommitId :=
  t.removes + t.adds

/-- `View::all_referenced_commit_ids`: chains the heads, both sides of
every RefTarget (local bookmarks, tags, remote bookmarks, git refs, git
HEAD), and the working-copy commit ids.  The Rust iterator is unordered
and may repeat ids, so the embedding produces a multiset. -/
def View.all_referenced_commit_ids (v : View) : Multiset CommitId :=
  (↑v.head_ids : Multiset CommitId)
  + (v.local_bookmarks.map (fun e => refTargetIds e.2)).sum
  + (v.tags.map (fun e => refTargetIds e.2)).sum
  + (v.remote_views.map
      (fun e => (e.2.bookmarks.map (fun b => refTargetIds b.2.target)).sum)).sum
  + (v.git_refs.map (fun e => refTargetIds e.2)).sum
  + refTargetIds v.git_head
  + ↑(v.wc_commit_ids.map (fun e => e.2))

/-! ### Commit (`src/lib/src/commit.rs`)

The backend (`store`, trees, the n-way tree merge) is an external
collaborator; it is modelled as explicit fallible functions, with
`BackendResult` rendered as `Option` (`none` = backend error). -/

/-- `Merge<T>` from the merge machinery: the multi-valued merge value
underlying `MergedTreeId::Merge`.  Modelled from the spec: a merge value is
resolved when it holds a single value and no removes. -/
structure MergeOf (α : Type) where
  removes : List α
  adds : List α
deriving DecidableEq

/-- Modelled from the spec: "multi-valued (unresolved)" versus resolved. -/
def MergeOf.is_resolved {α : Type} (m : MergeOf α) : Bool :=
  m.removes.isEmpty && (m.adds.length == 1)

/-- `MergedTreeId`: a root-tree reference, either a legacy single tree id
or a (possibly multi-valued) merge of tree ids. -/
inductive MergedTreeId where
  | legacy (id : TreeId)
  | merge (tree_ids : MergeOf TreeId)
deriving DecidableEq

/-- A loaded `MergedTree` (external collaborator): its id and whether its
own content has conflict markers (`MergedTree::has_conflict`). -/
structure MergedTree where
  id : MergedTreeId
  has_conflict : Bool
deriving DecidableEq

/-- `backend::Commit`: the immutable content record. -/
structure CommitData where
  parents : List CommitId
  predecessors : List CommitId
  root_tree : MergedTreeId
  change_id : Nat
  description : String
  author : String
  committer : String
  secure_sig : Option Nat
deriving DecidableEq

/-- A `Commit`: its id plus its content record (the store handle is passed
explicitly to the queries that need it). -/
structure Commit where
  id : CommitId
  data : CommitData
deriving DecidableEq

/-- The object store: commit lookup and root-tree lookup, both fallible. -/
structure Store where
  commits : CommitId → Option CommitData
  root_trees : MergedTreeId → Option MergedTree

/-- A `Repo`: the store plus the external n-way tree merge
(`rewrite::merge_commit_trees`). -/
structure Repo where
  store : Store
  merge_commit_trees : List Commit → Option MergedTree

/-- `Store::get_commit`. -/
def Store.get_commit (s : Store) (id : CommitId) : Option Commit :=
  (s.commits id).map (fun data => ⟨id, data⟩)

/-- `Commit::parent_ids`. -/
def Commit.parent_ids (c : Commit) : List CommitId :=
  c.data.parents

/-- `Commit::tree_id`. -/
def Commit.tree_id (c : Commit) : MergedTreeId :=
  c.data.root_tree

/-- `Commit::tree`: `store.get_root_tree(&self.data.root_tree)`. -/
def Commit.tree (c : Commit) (s : Store) : Option MergedTree :=
  s.root_trees c.data.root_tree

/-- `Commit::description`. -/
def Commit.description (c : Commit) : String :=
  c.data.description

/-- `self.parents().try_collect()`: looks every parent up, failing if any
lookup fails. -/
def Commit.parents_collect (c : Commit) (s : Store) : Option (List Commit) :=
  c.data.parents.mapM s.get_commit

/-- `Commit::parent_tree`: the merged tree of all parents. -/
def Commit.parent_tree (c : Commit) (r : Repo) : Option MergedTree := do
  let parents ← c.parents_collect r.store
  r.merge_commit_trees parents

/-- `Commit::is_empty`: a single parent is compared by tree id, otherwise
the parent trees are merged and the merged tree's id is compared. -/
def Commit.is_empty (c : Commit) (r : Repo) : Option Bool := do
  let parents ← c.parents_collect r.store
  match parents with
  | [parent] => pure (parent.tree_id == c.tree_id)
  | _ => do
      let parent_tree ← r.merge_commit_trees parents
      pure (c.tree_id == parent_tree.id)

/-- `Commit::has_conflict`: a `MergedTreeId::Merge` answers from the merge
value alone; a legacy id loads the tree and asks its content. -/
def Commit.has_conflict (c : Commit) (s : Store) : Option Bool :=
  match c.tree_id with
  | .merge tree_ids => some (! tree_ids.is_resolved)
  | .legacy _ => (c.tree s).map (fun t => t.has_conflict)

/-- `Commit::is_discardable`: empty description, exactly one parent, same
tree id as that parent. -/
def Commit.is_discardable (c : Commit) (s : Store) : Option Bool :=
  if c.description = "" then do
    let parents ← c.parents_collect s
    match parents with
    | [parent_commit] => pure (c.tree_id == parent_commit.tree_id)
    | _ => pure false
  else
    pure false

/-- A commit record with the description replaced (used to state that a
query ignores the description). -/
def Commit.with_description (c : Commit) (d : String) : Commit :=
  ⟨c.id, { c.data with description := d }⟩

/-! ### Spec-side readings (for refinement comparison) -/

/-- Spec reading: the root-tree reference "is itself a multi-valued
(unresolved) merge". -/
def tree_ref_multi_valued : MergedTreeId → Bool
  | .merge tree_ids => ! tree_ids.is_resolved
  | .legacy _ => false

/-- The legacy (single-tree) variant of a root-tree reference. -/
def tree_ref_legacy : MergedTreeId → Bool
  | .merge _ => false
  | .legacy _ => true

/-- Spec reading: "the tree's own content has conflict markers" — the
looked-up tree's content flag (false when the lookup fails). -/
def tree_content_conflicted (c : Commit) (s : Store) : Bool :=
  match c.tree s with
  | some t => t.has_conflict
  | none => false

/-- The C6 claim as stated: `has_conflict()` is true iff the root-tree
reference is a multi-valued (unresolved) merge, or, when the reference is
resolved, the tree's own content has conflict markers. -/
def has_conflict_as_claimed (c : Commit) (s : Store) : Prop :=
  c.has_conflict s = some true ↔
    (tree_ref_multi_valued c.tree_id = true ∨
     (tree_ref_multi_valued c.tree_id = false ∧ tree_content_conflicted c s = true))

/-- The parent tree a commit is compared against: the single parent's tree
when there is exactly one parent, otherwise the n-way merge of all parent
trees. -/
def parent_tree_ref (ps : List Commit) (pt : MergedTree) : MergedTreeId :=
  match ps with
  | [parent] => parent.tree_id
  | _ => pt.id

/-! ### Concrete fixtures for witnesses and counterexamples -/

/-- A conflicted bookmark target with adds `{10, 11}` and removes `{12}`. -/
def conflictedMain : RefTarget := ⟨{12}, {10, 11}⟩

/-- A view holding one conflicted local bookmark. -/
def viewW : View := ⟨[], [("main", conflictedMain)], [], [], [], RefTarget.absent, []⟩

/-- A view with a single local bookmark `main -> 1`. -/
def viewL : View := ⟨[], [("main", RefTarget.normal 1)], [], [], [], RefTarget.absent, []⟩

/-- The empty view. -/
def viewE : View := ⟨[], [], [], [], [], RefTarget.absent, []⟩

/-- A view with two working-copy bindings. -/
def viewR : View := ⟨[], [], [], [], [], RefTarget.absent, [("default", 5), ("other", 6)]⟩

/-- One remote bookmark `main@origin`. -/
def rvW : RemoteView := ⟨[("main", ⟨⟨0, {3}⟩, true⟩)]⟩

/-- A view with one remote view for `origin`. -/
def viewRW : View := ⟨[], [], [], [("origin", rvW)], [], RefTarget.absent, []⟩

/-- A parent commit record whose root tree is `legacy 7`. -/
def pDataW : CommitData := ⟨[], [], .legacy 7, 0, "base", "a", "a", none⟩

/-- The parent commit, id 1. -/
def pW : Commit := ⟨1, pDataW⟩

/-- A child of `pW` with empty description and the same root tree. -/
def cW : Commit := ⟨2, ⟨[1], [], .legacy 7, 0, "", "a", "a", none⟩⟩

/-- A store resolving only commit 1 (to `pDataW`). -/
def sW : Store := ⟨fun i => if i = 1 then some pDataW else none, fun _ => none⟩

/-- A merged tree with id `legacy 7`. -/
def mtW : MergedTree := ⟨.legacy 7, false⟩

/-- A repo over `sW` whose tree merge answers only for `[pW]`. -/
def rW : Repo := ⟨sW, fun ps => if ps = [pW] then some mtW else none⟩

/-- A resolved Merge-variant root-tree reference (single tree id). -/
def cexTreeId : MergedTreeId := .merge ⟨[], [5]⟩

/-- A commit whose root-tree reference is the resolved Merge variant. -/
def cexCommit : Commit := ⟨0, ⟨[], [], cexTreeId, 0, "", "", "", none⟩⟩

/-- A store in which that resolved reference loads to a tree whose content
reports conflict markers. -/
def cexStore : Store :=
  ⟨fun _ => none, fun tid => if tid = cexTreeId then some ⟨cexTreeId, true⟩ else none⟩

/-! ### Map lemmas -/

section MapLemmas

variable {K V : Type} [DecidableEq K]

theorem mapGet_remove_self (m : List (K × V)) (k : K) :
    mapGet (mapRemove m k) k = none := by
  induction m with
  | nil => rfl
  | cons e rest ih =>
      by_cases he : e.1 = k
      · simpa [mapRemove, he] using ih
      · simpa [mapRemove, he, mapGet] using ih

theorem mapGet_remove_ne (m : List (K × V)) (k k' : K) (h : k' ≠ k) :
    mapGet (mapRemove m k) k' = mapGet m k' := by
  have hkk : k ≠ k' := fun hk => h hk.symm
  induction m with
  | nil => rfl
  | cons e rest ih =>
      by_cases he : e.1 = k
      · simpa [mapRemove, he, mapGet, hkk] using ih
      · by_cases he' : e.1 = k'
        · simp [mapRemove, he, mapGet, he', h]
        · simpa [mapRemove, he, mapGet, he'] using ih

theorem mapRemove_of_get_none (m : List (K × V)) (k : K) (h : mapGet m k = none) :
    mapRemove m k = m := by
  induction m with
  | nil => rfl
  | cons e rest ih =>
      by_cases he : e.1 = k
      · simp [mapGet, he] at h
      · simp [mapGet, he] at h
        simp [mapRemove, he]
        exact ih h

theorem mapGet_insert_self (m : List (K × V)) (k : K) (v : V) :
    mapGet (mapInsert m k v) k = some v := by
  induction m with
  | nil => simp [mapInsert, mapGet]
  | cons e rest ih =>
      by_cases he : e.1 = k
      · simp [mapInsert, he, mapGet]
      · simp [mapInsert, he, mapGet]
        exact ih

theorem mapGet_insert_ne (m : List (K × V)) (k : K) (v : V) (k' : K) (h : k' ≠ k) :
    mapGet (mapInsert m k v) k' = mapGet m k' := by
  have hkk : k ≠ k' := fun hk => h hk.symm
  induction m with
  | nil => simp [mapInsert, mapGet, hkk]
  | cons e rest ih =>
      by_cases he : e.1 = k
      · simp [mapInsert, he, mapGet, hkk]
      · by_cases he' : e.1 = k'
        · simp [mapInsert, he, mapGet, he', h]
        · simp [mapInsert, he, mapGet, he']
          exact ih

theorem mapGet_modify_self (m : List (K × V)) (k : K) (f : V → V) :
    mapGet (mapModify m k f) k = (mapGet m k).map f := by
  induction m with
  | nil => rfl
  | cons e rest ih =>
      by_cases he : e.1 = k
      · simp [mapModify, he, mapGet]
      · simp [mapModify, he, mapGet]
        exact ih

theorem mapGet_modify_ne (m : List (K × V)) (k : K) (f : V → V) (k' : K) (h : k' ≠ k) :
    mapGet (mapModify m k f) k' = mapGet m k' := by
  have hkk : k ≠ k' := fun hk => h hk.symm
  induction m with
  | nil => rfl
  | cons e rest ih =>
      by_cases he : e.1 = k
      · simp [mapModify, he, mapGet, hkk]
      · by_cases he' : e.1 = k'
        · simp [mapModify, he, mapGet, he', h]
        · simp [mapModify, he, mapGet, he']
          exact ih

end MapLemmas

/-- The removed key is not among the keys of the shrunken map. -/
theorem not_mem_keys_mapRemove {K V : Type} [DecidableEq K] (m : List (K × V)) (k : K) :
    k ∉ (mapRemove m k).map Prod.fst := by
  induction m with
  | nil => simp [mapRemove]
  | cons e rest ih =>
      by_cases he : e.1 = k
      · simpa [mapRemove, he] using ih
      · simp only [mapRemove, if_neg he, List.map_cons, List.mem_cons, not_or]
        exact ⟨fun hk => he hk.symm, ih⟩

/-- Membership in the sum of a list of multisets. -/
theorem mem_listSum {α : Type} {a : α} {m : Multiset α} {l : List (Multiset α)}
    (hm : m ∈ l) (ha : a ∈ m) : a ∈ l.sum := by
  induction l with
  | nil => cases hm
  | cons x xs ih =>
      rcases List.mem_cons.mp hm with h | h
      · subst h
        simp [Multiset.mem_add, ha]
      · simp [Multiset.mem_add, ih h]

/-! ### Claim theorems -/

/-- C1: for every triple of RefTargets `base`, `a`, `b`, the three-way
merge is commutative in the two non-base arguments:
`merge(base, a, b) = merge(base, b, a)`. -/
theorem merge_ref_targets_comm (base a b : RefTarget) :
    merge_ref_targets base a b = merge_ref_targets base b a := by
  unfold merge_ref_targets
  have h1 : a.removes + base.adds + b.removes = b.removes + base.adds + a.removes := by abel
  have h2 : a.adds + base.removes + b.adds = b.adds + base.removes + a.adds := by abel
  rw [h1, h2]

/-- C2: when a base resolved to `c1` is resolved by the two sides to two
different commit ids `c2` and `c3` (both sides modifying it, so `c2`, `c3`
differ from `c1`), the merge is a conflicted RefTarget whose adds are
exactly `{c2, c3}` and whose removes contain the base id `c1`; in
particular it is not resolved to one side's value. -/
theorem merge_ref_targets_divergent (c1 c2 c3 : CommitId)
    (h23 : c2 ≠ c3) (h21 : c2 ≠ c1) (h31 : c3 ≠ c1) :
    (merge_ref_targets (RefTarget.normal c1) (RefTarget.normal c2)
        (RefTarget.normal c3)).adds = {c2, c3} ∧
    c1 ∈ (merge_ref_targets (RefTarget.normal c1) (RefTarget.normal c2)
        (RefTarget.normal c3)).removes ∧
    (merge_ref_targets (RefTarget.normal c1) (RefTarget.normal c2)
        (RefTarget.normal c3)).is_conflict = true := by
  have key : merge_ref_targets (RefTarget.normal c1) (RefTarget.normal c2)
      (RefTarget.normal c3) = ⟨{c1}, {c2, c3}⟩ := by
    unfold merge_ref_targets RefTarget.simplify RefTarget.normal
    congr 1
    · simp only [zero_add, add_zero]
      ext x
      rw [Multiset.count_sub]
      by_cases hx1 : x = c1
      · subst hx1
        simp [Multiset.count_singleton, Ne.symm h21, Ne.symm h31]
      · simp [Multiset.count_singleton, hx1]
    · simp only [zero_add, add_zero, Multiset.sub_singleton]
      rw [Multiset.erase_of_not_mem]
      · rw [Multiset.singleton_add]
        rfl
      · simp [Multiset.mem_add, Ne.symm h21, Ne.symm h31]
  rw [key]
  refine ⟨rfl, by simp, ?_⟩
  simp [RefTarget.is_conflict, RefTarget.is_present, RefTarget.absent, RefTarget.mk.injEq]

/-- Witness for C2 at the concrete triple (1, 2, 3). -/
theorem merge_ref_targets_divergent_witness :
    (merge_ref_targets (RefTarget.normal 1) (RefTarget.normal 2)
        (RefTarget.normal 3)).adds = {2, 3} ∧
    (1 : CommitId) ∈ (merge_ref_targets (RefTarget.normal 1) (RefTarget.normal 2)
        (RefTarget.normal 3)).removes ∧
    (merge_ref_targets (RefTarget.normal 1) (RefTarget.normal 2)
        (RefTarget.normal 3)).is_conflict = true :=
  merge_ref_targets_divergent 1 2 3 (by decide) (by decide) (by decide)

/-- C3: for every View and bookmark name, setting the local bookmark to an
absent target removes the map entry: the subsequent lookup returns the
absent RefTarget and the name is not yielded by the bookmark enumeration
(so no explicit absent entry is ever stored). -/
theorem set_local_bookmark_target_absent (v : View) (name : RefNameT) (target : RefTarget)
    (h : target.is_present = false) :
    (v.set_local_bookmark_target name target).get_local_bookmark name = RefTarget.absent ∧
    name ∉ ((v.set_local_bookmark_target name target).local_bookmarks_seq.map Prod.fst) := by
  have hset : v.set_local_bookmark_target name target
      = { v with local_bookmarks := mapRemove v.local_bookmarks name } := by
    simp [View.set_local_bookmark_target, h]
  rw [hset]
  constructor
  · simp [View.get_local_bookmark, mapGet_remove_self]
  · exact not_mem_keys_mapRemove v.local_bookmarks name

/-- Witness for C3 on a view holding `main -> 1`. -/
theorem set_local_bookmark_target_absent_witness :
    (viewL.set_local_bookmark_target "main" RefTarget.absent).get_local_bookmark "main"
      = RefTarget.absent ∧
    "main" ∉ ((viewL.set_local_bookmark_target "main"
        RefTarget.absent).local_bookmarks_seq.map Prod.fst) :=
  set_local_bookmark_target_absent viewL "main" RefTarget.absent (by decide)

/-- C4: `rename_workspace(old, new)` fails with WorkspaceAlreadyExists when
`new` is already bound, fails with WorkspaceDoesNotExist when `old` is
unbound (and `new` is not bound, which the code checks first), leaves the
View completely unchanged on every failure, and on success moves the
binding of `old` to `new`, touching nothing else. -/
theorem rename_workspace_spec (v : View) (oldId newId : WorkspaceId) :
    (∀ e, (v.rename_workspace oldId newId).2 = some e →
        (v.rename_workspace oldId newId).1 = v) ∧
    ((mapGet v.wc_commit_ids newId).isSome = true →
        (v.rename_workspace oldId newId).2
          = some (.workspaceAlreadyExists newId)) ∧
    (mapGet v.wc_commit_ids newId = none → mapGet v.wc_commit_ids oldId = none →
        (v.rename_workspace oldId newId).2
          = some (.workspaceDoesNotExist oldId)) ∧
    (∀ cid, mapGet v.wc_commit_ids newId = none →
        mapGet v.wc_commit_ids oldId = some cid →
        (v.rename_workspace oldId newId).2 = none ∧
        (v.rename_workspace oldId newId).1.get_wc_commit_id newId = some cid ∧
        (v.rename_workspace oldId newId).1.get_wc_commit_id oldId = none ∧
        (∀ w, w ≠ oldId → w ≠ newId →
          (v.rename_workspace oldId newId).1.get_wc_commit_id w = v.get_wc_commit_id w) ∧
        (v.rename_workspace oldId newId).1.head_ids = v.head_ids ∧
        (v.rename_workspace oldId newId).1.local_bookmarks = v.local_bookmarks ∧
        (v.rename_workspace oldId newId).1.tags = v.tags ∧
        (v.rename_workspace oldId newId).1.remote_views = v.remote_views ∧
        (v.rename_workspace oldId newId).1.git_refs = v.git_refs ∧
        (v.rename_workspace oldId newId).1.git_head = v.git_head) := by
  rcases hn : mapGet v.wc_commit_ids newId with _ | cidn
  · rcases ho : mapGet v.wc_commit_ids oldId with _ | cido
    · have hr : v.rename_workspace oldId newId
          = ({ v with wc_commit_ids := mapRemove v.wc_commit_ids oldId },
             some (.workspaceDoesNotExist oldId)) := by
        simp [View.rename_workspace, hn, ho]
      refine ⟨?_, ?_, ?_, ?_⟩
      · intro e _
        rw [hr]
        show { v with wc_commit_ids := mapRemove v.wc_commit_ids oldId } = v
        rw [mapRemove_of_get_none _ _ ho]
      · intro hsome
        simp at hsome
      · intro _ _
        rw [hr]
      · intro cid _ h2
        simp at h2
    · have hon : oldId ≠ newId := by
        intro he
        rw [he, hn] at ho
        cases ho
      have hr : v.rename_workspace oldId newId
          = ({ v with wc_commit_ids := (mapInsert (mapRemove v.wc_commit_ids oldId)
              newId cido) }, none) := by
        simp [View.rename_workspace, hn, ho]
      refine ⟨?_, ?_, ?_, ?_⟩
      · intro e he
        rw [hr] at he
        cases he
      · intro hsome
        simp at hsome
      · intro _ h2
        simp at h2
      · intro cid _ h2
        injection h2 with h2
        subst h2
        rw [hr]
        refine ⟨rfl, ?_, ?_, ?_, rfl, rfl, rfl, rfl, rfl, rfl⟩
        · exact mapGet_insert_self _ _ _
        · show mapGet (mapInsert (mapRemove v.wc_commit_ids oldId) newId cido) oldId = none
          rw [mapGet_insert_ne _ _ _ _ hon, mapGet_remove_self]
        · intro w hw1 hw2
          show mapGet (mapInsert (mapRemove v.wc_commit_ids oldId) newId cido) w
              = mapGet v.wc_commit_ids w
          rw [mapGet_insert_ne _ _ _ _ hw2, mapGet_remove_ne _ _ _ hw1]
  · have hr : v.rename_workspace oldId newId
        = (v, some (.workspaceAlreadyExists newId)) := by
      simp [View.rename_workspace, hn]
    refine ⟨?_, ?_, ?_, ?_⟩
    · intro e _
      rw [hr]
    · intro _
      rw [hr]
    · intro h1 _
      simp at h1
    · intro cid h1 _
      simp at h1

/-- Witness for C4: renaming `default` to `second` on a view with bindings
for `default` and `other`. -/
theorem rename_workspace_spec_witness :
    (viewR.rename_workspace "default" "second").2 = none ∧
    (viewR.rename_workspace "default" "second").1.get_wc_commit_id "second" = some 5 ∧
    (viewR.rename_workspace "default" "second").1.get_wc_commit_id "default" = none ∧
    (viewR.rename_workspace "default" "second").1.get_wc_commit_id "other" = some 6 := by
  have h := (rename_workspace_spec viewR "default" "second").2.2.2 5 (by decide) (by decide)
  refine ⟨h.1, h.2.1, h.2.2.1, ?_⟩
  rw [h.2.2.2.1 "other" (by decide) (by decide)]
  decide

/-- C5: `all_referenced_commit_ids()` yields every CommitId occurring in
any field: the head set, both the add and the remove sides of every
RefTarget (local bookmarks, tags, remote bookmarks, git refs, git HEAD),
and every working-copy binding. -/
theorem all_referenced_commit_ids_complete (v : View) :
    (∀ id ∈ v.head_ids, (id : CommitId) ∈ v.all_referenced_commit_ids) ∧
    (∀ p ∈ v.local_bookmarks, ∀ id ∈ refTargetIds p.2,
        id ∈ v.all_referenced_commit_ids) ∧
    (∀ p ∈ v.tags, ∀ id ∈ refTargetIds p.2, id ∈ v.all_referenced_commit_ids) ∧
    (∀ p ∈ v.remote_views, ∀ b ∈ p.2.bookmarks, ∀ id ∈ refTargetIds b.2.target,
        id ∈ v.all_referenced_commit_ids) ∧
    (∀ p ∈ v.git_refs, ∀ id ∈ refTargetIds p.2, id ∈ v.all_referenced_commit_ids) ∧
    (∀ id ∈ refTargetIds v.git_head, id ∈ v.all_referenced_commit_ids) ∧
    (∀ p ∈ v.wc_commit_ids, p.2 ∈ v.all_referenced_commit_ids) := by
  refine ⟨?_, ?_, ?_, ?_, ?_, ?_, ?_⟩
  · intro id hid
    simp only [View.all_referenced_commit_ids, Multiset.mem_add]
    exact Or.inl (Or.inl (Or.inl (Or.inl (Or.inl (Or.inl (Multiset.mem_coe.mpr hid))))))
  · intro p hp id hid
    simp only [View.all_referenced_commit_ids, Multiset.mem_add]
    exact Or.inl (Or.inl (Or.inl (Or.inl (Or.inl (Or.inr
      (mem_listSum (List.mem_map_of_mem _ hp) hid))))))
  · intro p hp id hid
    simp only [View.all_referenced_commit_ids, Multiset.mem_add]
    exact Or.inl (Or.inl (Or.inl (Or.inl (Or.inr
      (mem_listSum (List.mem_map_of_mem _ hp) hid)))))
  · intro p hp b hb id hid
    simp only [View.all_referenced_commit_ids, Multiset.mem_add]
    have hinner : id ∈ (p.2.bookmarks.map (fun b => refTargetIds b.2.target)).sum :=
      mem_listSum (List.mem_map_of_mem _ hb) hid
    exact Or.inl (Or.inl (Or.inl (Or.inr
      (mem_listSum (List.mem_map_of_mem _ hp) hinner))))
  · intro p hp id hid
    simp only [View.all_referenced_commit_ids, Multiset.mem_add]
    exact Or.inl (Or.inl (Or.inr (mem_listSum (List.mem_map_of_mem _ hp) hid)))
  · intro id hid
    simp only [View.all_referenced_commit_ids, Multiset.mem_add]
    exact Or.inl (Or.inr hid)
  · intro p hp
    simp only [View.all_referenced_commit_ids, Multiset.mem_add]
    exact Or.inr (Multiset.mem_coe.mpr (List.mem_map_of_mem _ hp))

/-- Witness for C5: a view with one conflicted bookmark (adds `{10, 11}`,
removes `{12}`) yields 10, 11 and 12. -/
theorem all_referenced_commit_ids_complete_witness :
    (10 : CommitId) ∈ viewW.all_referenced_commit_ids ∧
    (11 : CommitId) ∈ viewW.all_referenced_commit_ids ∧
    (12 : CommitId) ∈ viewW.all_referenced_commit_ids :=
  ⟨(all_referenced_commit_ids_complete viewW).2.1 ("main", conflictedMain)
      (by decide) 10 (by decide),
   (all_referenced_commit_ids_complete viewW).2.1 ("main", conflictedMain)
      (by decide) 11 (by decide),
   (all_referenced_commit_ids_complete viewW).2.1 ("main", conflictedMain)
      (by decide) 12 (by decide)⟩

/-- C6 counterexample: a commit whose root-tree reference is a *resolved*
Merge variant, in a store where that reference loads to a tree whose
content reports conflict markers.  `has_conflict()` answers `false` from
the merge value alone, without consulting the tree, so the claimed
equivalence fails. -/
theorem has_conflict_claim_cex : ¬ has_conflict_as_claimed cexCommit cexStore := by
  unfold has_conflict_as_claimed
  decide

/-- C6 (amended): `has_conflict()` is true iff the root tree reference is
a Merge variant that is multi-valued (unresolved), or it is the legacy
variant and the looked-up tree's own content has conflict markers; a
resolved Merge variant yields false without consulting the tree. -/
theorem has_conflict_iff (c : Commit) (s : Store) :
    c.has_conflict s = some true ↔
      (tree_ref_multi_valued c.tree_id = true ∨
       (tree_ref_legacy c.tree_id = true ∧ tree_content_conflicted c s = true)) := by
  rcases hc : c.tree_id with tid | m
  · rcases ht : c.tree s with _ | t
    · simp [Commit.has_conflict, hc, ht, tree_ref_multi_valued, tree_ref_legacy,
        tree_content_conflicted]
    · simp [Commit.has_conflict, hc, ht, tree_ref_multi_valued, tree_ref_legacy,
        tree_content_conflicted]
  · simp [Commit.has_conflict, hc, tree_ref_multi_valued, tree_ref_legacy]

/-- C7: given successful parent lookups, `is_discardable()` is true iff
the description is empty, there is exactly one parent, and the commit's
tree id equals that parent's tree id. -/
theorem is_discardable_iff (c : Commit) (s : Store) (ps : List Commit)
    (h : c.parents_collect s = some ps) :
    c.is_discardable s = some true ↔
      (c.description = "" ∧ ∃ p, ps = [p] ∧ c.tree_id = p.tree_id) := by
  by_cases hd : c.description = ""
  · rcases ps with _ | ⟨p, _ | ⟨q, rest⟩⟩
    · simp [Commit.is_discardable, hd, h]
    · simp [Commit.is_discardable, hd, h]
    · simp [Commit.is_discardable, hd, h]
  · simp [Commit.is_discardable, hd]

/-- Witness for C7: an empty-description commit with one parent and the
parent's tree is discardable. -/
theorem is_discardable_iff_witness :
    cW.parents_collect sW = some [pW] ∧ cW.is_discardable sW = some true :=
  ⟨by decide, (is_discardable_iff cW sW [pW] (by decide)).mpr ⟨rfl, pW, rfl, rfl⟩⟩

/-- C8: given successful parent lookups and tree merge, `is_empty(repo)`
is true iff the commit's tree id equals its parent tree id (the single
parent's tree when there is one parent, otherwise the n-way merge of all
parent trees), and the description has no effect on the result. -/
theorem is_empty_iff (c : Commit) (r : Repo) (ps : List Commit) (pt : MergedTree)
    (hp : c.parents_collect r.store = some ps)
    (hm : r.merge_commit_trees ps = some pt) :
    (c.is_empty r = some true ↔ c.tree_id = parent_tree_ref ps pt) ∧
    (∀ d, (c.with_description d).is_empty r = c.is_empty r) := by
  constructor
  · rcases ps with _ | ⟨p, _ | ⟨q, rest⟩⟩
    · simp [Commit.is_empty, hp, hm, parent_tree_ref]
    · simp [Commit.is_empty, hp, parent_tree_ref]
      exact eq_comm
    · simp [Commit.is_empty, hp, hm, parent_tree_ref]
  · intro d
    rfl

/-- Witness for C8: a commit with one parent and the parent's tree is
empty. -/
theorem is_empty_iff_witness :
    cW.parents_collect rW.store = some [pW] ∧
    rW.merge_commit_trees [pW] = some mtW ∧
    cW.is_empty rW = some true :=
  ⟨by decide, by decide,
   (is_empty_iff cW rW [pW] mtW (by decide) (by decide)).1.mpr (by decide)⟩

/-- C9: `get_remote_bookmark` is total and never fails: when the remote
has no entry in the View, or the bookmark name has no entry under that
remote, it returns the absent RemoteRef. -/
theorem get_remote_bookmark_total (v : View) (remote name : String) :
    (mapGet v.remote_views remote = none →
        v.get_remote_bookmark remote name = RemoteRef.absent_ref) ∧
    (∀ rv, mapGet v.remote_views remote = some rv →
        mapGet rv.bookmarks name = none →
        v.get_remote_bookmark remote name = RemoteRef.absent_ref) := by
  constructor
  · intro h
    simp [View.get_remote_bookmark, h]
  · intro rv h hb
    simp [View.get_remote_bookmark, h, hb]

/-- Witness for C9 on the empty view. -/
theorem get_remote_bookmark_total_witness :
    mapGet viewE.remote_views "origin" = none ∧
    viewE.get_remote_bookmark "origin" "main" = RemoteRef.absent_ref :=
  ⟨rfl, (get_remote_bookmark_total viewE "origin" "main").1 rfl⟩

/-- C10: `set_remote_bookmark` with an absent remote_ref leaves the View
entirely unchanged when the remote has no entry; for an existing remote it
removes only that one bookmark entry, keeps the per-remote view entry in
place (even when it becomes empty), leaves every other remote's entry
alone, and leaves every other field of the View unchanged. -/
theorem set_remote_bookmark_absent_frame (v : View) (remote name : String)
    (r : RemoteRef) (h : r.is_present = false) :
    (mapGet v.remote_views remote = none → v.set_remote_bookmark remote name r = v) ∧
    (∀ rv, mapGet v.remote_views remote = some rv →
        mapGet (v.set_remote_bookmark remote name r).remote_views remote
          = some ⟨mapRemove rv.bookmarks name⟩ ∧
        (∀ rn, rn ≠ remote →
          mapGet (v.set_remote_bookmark remote name r).remote_views rn
            = mapGet v.remote_views rn) ∧
        (v.set_remote_bookmark remote name r).head_ids = v.head_ids ∧
        (v.set_remote_bookmark remote name r).local_bookmarks = v.local_bookmarks ∧
        (v.set_remote_bookmark remote name r).tags = v.tags ∧
        (v.set_remote_bookmark remote name r).git_refs = v.git_refs ∧
        (v.set_remote_bookmark remote name r).git_head = v.git_head ∧
        (v.set_remote_bookmark remote name r).wc_commit_ids = v.wc_commit_ids) := by
  constructor
  · intro hn
    simp [View.set_remote_bookmark, h, hn]
  · intro rv hs
    have hset : v.set_remote_bookmark remote name r
        = { v with remote_views := (mapModify v.remote_views remote
            (fun rv => ⟨mapRemove rv.bookmarks name⟩)) } := by
      simp [View.set_remote_bookmark, h, hs]
    rw [hset]
    refine ⟨?_, ?_, rfl, rfl, rfl, rfl, rfl, rfl⟩
    · show mapGet (mapModify v.remote_views remote
          (fun rv => ⟨mapRemove rv.bookmarks name⟩)) remote
        = some ⟨mapRemove rv.bookmarks name⟩
      rw [mapGet_modify_self, hs]
      rfl
    · intro rn hrn
      exact mapGet_modify_ne _ _ _ _ hrn

/-- Witness for C10: removing `main@origin` via an absent RemoteRef keeps
the `origin` per-remote view, now empty. -/
theorem set_remote_bookmark_absent_frame_witness :
    mapGet viewRW.remote_views "origin" = some rvW ∧
    mapGet (viewRW.set_remote_bookmark "origin" "main"
        RemoteRef.absent_ref).remote_views "origin"
      = some ⟨mapRemove rvW.bookmarks "main"⟩ ∧
    (viewRW.set_remote_bookmark "origin" "main"
        RemoteRef.absent_ref).wc_commit_ids = viewRW.wc_commit_ids := by
  have h := (set_remote_bookmark_absent_frame viewRW "origin" "main"
      RemoteRef.absent_ref (by decide)).2 rvW (by decide)
  exact ⟨by decide, h.1, h.2.2.2.2.2.2.2⟩

end JJ
